import Mathlib

/-!
Shallow embedding of `src/examples/rust/hello.rs` (the nimbus WASM guest
example) and proofs about its exported `alloc` and `handle` operations.

Bytes are modelled as `Nat` values below 256, buffers as `List Nat`,
guest linear memory as a function `Nat → Nat` together with a bump
pointer, and the Rust `u64` packing arithmetic as `Nat` arithmetic
taken modulo `2 ^ 64` where the source truncates.
-/

namespace Nimbus

/-- UTF-8 bytes of an ASCII string (each character below 128), used to
transcribe the Rust string literals of the source into byte lists. -/
def strBytes (s : String) : List Nat := s.toList.map Char.toNat

/-- The UTF-8 lead-byte table enforced by Rust's `str::from_utf8`: for a
byte starting a code point, how many continuation bytes follow and the
allowed range of the first of them (the later ones are always 80..BF).
ASCII needs none; leads C2..DF need one; E0/E1..EC/ED/EE..EF need two with
first continuation A0..BF / 80..BF / 80..9F / 80..BF; F0/F1..F3/F4 need
three with first continuation 90..BF / 80..BF / 80..8F.  Bytes that can
start no code point (80..C1, F5..FF) map to `none`. -/
def leadClass (b : Nat) : Option (Nat × Nat × Nat) :=
  if b < 128 then some (0, 0, 0)
  else if 194 ≤ b && b ≤ 223 then some (1, 128, 191)
  else if b = 224 then some (2, 160, 191)
  else if 225 ≤ b && b ≤ 236 then some (2, 128, 191)
  else if b = 237 then some (2, 128, 159)
  else if 238 ≤ b && b ≤ 239 then some (2, 128, 191)
  else if b = 240 then some (3, 144, 191)
  else if 241 ≤ b && b ≤ 243 then some (3, 128, 191)
  else if b = 244 then some (3, 128, 143)
  else none

/-- UTF-8 validation scanner: `utf8Scan k lo hi s` checks `s` given that
`k` continuation bytes are still expected, the first of which must lie in
`lo..hi`; continuation bytes after that must lie in 80..BF.  New code
points are classified by `leadClass`.  A pending sequence at the end of
input is invalid. -/
def utf8Scan : Nat → Nat → Nat → List Nat → Bool
  | 0, _, _, [] => true
  | _+1, _, _, [] => false
  | 0, _, _, b :: rest =>
    match leadClass b with
    | some (k, lo, hi) => utf8Scan k lo hi rest
    | none => false
  | k+1, lo, hi, b :: rest => if lo ≤ b && b ≤ hi then utf8Scan k 128 191 rest else false

/-- UTF-8 validity of a byte list, as decided by `str::from_utf8`. -/
def validUtf8 (s : List Nat) : Bool := utf8Scan 0 0 0 s

/-- `input_str.replace("\"", "\\\"")` at byte level: every 0x22 becomes
0x5C 0x22, every other byte is passed through. -/
def escapeQuotes : List Nat → List Nat
  | [] => []
  | b :: bs => if b = 34 then 92 :: 34 :: escapeQuotes bs else b :: escapeQuotes bs

/-- `str::from_utf8(input_slice).unwrap_or("{}")` at byte level: the input
bytes if they are valid UTF-8, otherwise the two placeholder bytes. -/
def decodeInput (input : List Nat) : List Nat :=
  if validUtf8 input then input else strBytes ("\x7b\x7d")

/-- Bytes of the raw-string template before the interpolation point.  The
source uses a raw literal, so each backslash-quote pair is two literal
bytes of the output. -/
def tmplHead : List Nat :=
  strBytes ("\x7b\\\"message\\\": \\\"Hello from Rust WASM!\\\", \\\"input\\\": \\\"")

/-- Bytes of the raw-string template after the interpolation point. -/
def tmplTail : List Nat := strBytes ("\\\"\x7d")

/-- The escaped text substituted into the template's input field. -/
def embeddedInput (input : List Nat) : List Nat := escapeQuotes (decodeInput input)

/-- The response string built by `handle`, as bytes: the `format!` of the
template with the escaped decoded input. -/
def response (input : List Nat) : List Nat := tmplHead ++ embeddedInput input ++ tmplTail

/-- Guest linear memory: a bump pointer of the next free address together
with the byte contents of every address. -/
structure GuestMem where
  next : Nat
  data : Nat → Nat

/-- `alloc`: reserve `len` bytes and return their start address; the
buffer is leaked (`mem::forget`), so the bump pointer only grows and the
reserved bytes keep whatever contents they had (uninitialized). -/
def alloc (len : Nat) (m : GuestMem) : Nat × GuestMem :=
  (m.next, { m with next := m.next + len })

/-- Read `len` bytes starting at `addr` (`slice::from_raw_parts`). -/
def readBytes (d : Nat → Nat) (addr len : Nat) : List Nat :=
  (List.range len).map (fun i => d (addr + i))

/-- Write the bytes `bs` starting at `addr` (`ptr::copy_nonoverlapping`). -/
def storeBytes (bs : List Nat) (addr : Nat) (d : Nat → Nat) : Nat → Nat :=
  fun a => if addr ≤ a ∧ a - addr < bs.length then bs.getD (a - addr) 0 else d a

/-- `((out_ptr as u64) << 32) | (out_len as u64)` in `u64` arithmetic:
the shift wraps modulo `2 ^ 64`, then the length is or-ed in. -/
def packRef (addr len : Nat) : Nat := ((addr <<< 32) % 2 ^ 64) ||| (len % 2 ^ 64)

/-- `value >> 32`: the address half of a packed reference. -/
def unpackAddr (v : Nat) : Nat := v >>> 32

/-- `value & 0xFFFFFFFF`: the length half of a packed reference. -/
def unpackLen (v : Nat) : Nat := v &&& 0xFFFFFFFF

/-- `handle`: read the input buffer, decode it, build the response string,
copy it into a fresh allocation of exactly its length, and return the new
memory together with the packed (address, length) reference. -/
def handle (m : GuestMem) (ptr len : Nat) : GuestMem × Nat :=
  let input := readBytes m.data ptr len
  let output := response input
  let outLen := output.length
  let res := alloc outLen m
  let m2 : GuestMem := { res.2 with data := storeBytes output res.1 res.2.data }
  (m2, packRef res.1 outLen)

example : strBytes ("ab\x7b") = [97, 98, 123] := by decide
example : validUtf8 [104, 105] = true := by decide
example : validUtf8 [128] = false := by decide
example : validUtf8 [206, 187] = true := by decide
example : validUtf8 [237, 160, 128] = false := by decide
example : validUtf8 [224, 160, 128] = true := by decide
example : validUtf8 [224, 159, 128] = false := by decide
example : validUtf8 [244, 144, 128, 128] = false := by decide
example : validUtf8 [240, 144, 128, 128] = true := by decide
example : validUtf8 [192, 175] = false := by decide
example : validUtf8 [226, 130, 172] = true := by decide
example : validUtf8 [206] = false := by decide
example : escapeQuotes [65, 34, 66] = [65, 92, 34, 66] := by decide
example : tmplHead.length = 54 := by decide
example : tmplTail.length = 3 := by decide

/-- A concrete guest memory for the end-to-end scenario: the five bytes of
`World` sit at addresses 100..104 and the bump pointer is at 105, as after
a host-side `alloc(5)` followed by the host writing the input. -/
def memWorld : GuestMem :=
  { next := 105, data := storeBytes (strBytes ("World")) 100 (fun _ => 0) }

/-- The expected response bytes for input `World`: the raw-string template
with its literal backslash-quote pairs around the echoed input. -/
def worldResponse : List Nat :=
  strBytes ("\x7b\\\"message\\\": \\\"Hello from Rust WASM!\\\", \\\"input\\\": \\\"World\\\"\x7d")

example : readBytes memWorld.data 100 5 = strBytes ("World") := by decide
example : response (readBytes memWorld.data 100 5) = worldResponse := by decide
example : worldResponse.length = 62 := by decide
example : unpackAddr (handle memWorld 100 5).2 = 105 := by decide
example : unpackLen (handle memWorld 100 5).2 = 62 := by decide
example : readBytes (handle memWorld 100 5).1.data 105 62 = worldResponse := by decide

/-! ### Helper lemmas about quote escaping -/

theorem escapeQuotes_eq_self (s : List Nat) : 34 ∉ s → escapeQuotes s = s := by
  induction s with
  | nil => intro _; rfl
  | cons b bs ih =>
    intro h
    have hb : ¬ b = 34 := fun e => h (by simp [e])
    have hbs : 34 ∉ bs := fun m => h (List.mem_cons_of_mem _ m)
    simp [escapeQuotes, hb, ih hbs]

theorem count34_escapeQuotes (s : List Nat) :
    (escapeQuotes s).count 34 = s.count 34 := by
  induction s with
  | nil => rfl
  | cons b bs ih =>
    by_cases hb : b = 34
    · subst hb; simp [escapeQuotes, List.count_cons, ih]
    · simp [escapeQuotes, hb, List.count_cons, ih]

theorem count92_escapeQuotes (s : List Nat) :
    (escapeQuotes s).count 92 = s.count 92 + s.count 34 := by
  induction s with
  | nil => rfl
  | cons b bs ih =>
    by_cases hb : b = 34
    · subst hb; simp [escapeQuotes, List.count_cons, ih]; omega
    · simp [escapeQuotes, hb, List.count_cons, ih]; split <;> omega

theorem escapeQuotes_headD_ne (s : List Nat) : (escapeQuotes s).getD 0 0 ≠ 34 := by
  cases s with
  | nil => simp [escapeQuotes]
  | cons b bs =>
    by_cases hb : b = 34
    · subst hb; simp [escapeQuotes]
    · simp [escapeQuotes, hb]

theorem escapeQuotes_backslash_before (s : List Nat) :
    ∀ i, (escapeQuotes s).getD (i + 1) 0 = 34 → (escapeQuotes s).getD i 0 = 92 := by
  induction s with
  | nil => intro i h; simp [escapeQuotes] at h
  | cons b bs ih =>
    intro i h
    by_cases hb : b = 34
    · subst hb
      simp only [escapeQuotes, eq_self_iff_true, if_true] at h ⊢
      cases i with
      | zero => rfl
      | succ k =>
        simp only [List.getD_cons_succ] at h ⊢
        cases k with
        | zero => exact absurd h (escapeQuotes_headD_ne bs)
        | succ m =>
          simp only [List.getD_cons_succ] at h ⊢
          exact ih m h
    · simp only [escapeQuotes, if_neg hb] at h ⊢
      cases i with
      | zero =>
        simp only [List.getD_cons_succ, List.getD_cons_zero] at h
        exact absurd h (escapeQuotes_headD_ne bs)
      | succ k =>
        simp only [List.getD_cons_succ] at h ⊢
        exact ih k h

theorem escapeQuotes_quote_preceded (s : List Nat) :
    ∀ i, (escapeQuotes s).getD i 0 = 34 →
      0 < i ∧ (escapeQuotes s).getD (i - 1) 0 = 92 := by
  intro i h
  cases i with
  | zero => exact absurd h (escapeQuotes_headD_ne s)
  | succ k => exact ⟨Nat.succ_pos k, by simpa using escapeQuotes_backslash_before s k h⟩

/-! ### Helper lemmas about packing and unpacking -/

theorem packRef_eq (a l : Nat) (ha : a < 2 ^ 32) (hl : l < 2 ^ 32) :
    packRef a l = 2 ^ 32 * a + l := by
  unfold packRef
  rw [Nat.shiftLeft_eq, Nat.mul_comm a (2 ^ 32)]
  have h1 : 2 ^ 32 * a % 2 ^ 64 = 2 ^ 32 * a := Nat.mod_eq_of_lt (by omega)
  have h2 : l % 2 ^ 64 = l := Nat.mod_eq_of_lt (by omega)
  rw [h1, h2]
  exact (Nat.mul_add_lt_is_or hl a).symm

theorem unpackAddr_packRef (a l : Nat) (ha : a < 2 ^ 32) (hl : l < 2 ^ 32) :
    unpackAddr (packRef a l) = a := by
  rw [packRef_eq a l ha hl]
  unfold unpackAddr
  rw [Nat.shiftRight_eq_div_pow]
  rw [Nat.mul_add_div (Nat.two_pow_pos 32), Nat.div_eq_of_lt hl]
  omega

theorem unpackLen_packRef (a l : Nat) : unpackLen (packRef a l) = l % 2 ^ 32 := by
  have hf : (0xFFFFFFFF : Nat) = 2 ^ 32 - 1 := by norm_num
  unfold unpackLen packRef
  rw [hf, Nat.and_pow_two_sub_one_eq_mod]
  apply Nat.eq_of_testBit_eq
  intro j
  simp only [Nat.testBit_mod_two_pow, Nat.testBit_or, Nat.testBit_shiftLeft, ge_iff_le]
  by_cases hj : j < 32
  · have hj64 : j < 64 := by omega
    have h32 : ¬ 32 ≤ j := by omega
    simp only [hj, hj64, h32, decide_True, decide_False, Bool.true_and, Bool.false_and,
      Bool.false_or]
  · simp only [hj, decide_False, Bool.false_and]

/-! ### Helper lemmas about memory reads and writes -/

theorem readBytes_length (d : Nat → Nat) (addr len : Nat) :
    (readBytes d addr len).length = len := by
  simp [readBytes]

theorem readBytes_storeBytes (bs : List Nat) (addr : Nat) (d : Nat → Nat) :
    readBytes (storeBytes bs addr d) addr bs.length = bs := by
  apply List.ext_getElem
  · simp [readBytes]
  · intro i h1 h2
    simp only [readBytes, List.getElem_map, List.getElem_range, storeBytes]
    have hc : addr ≤ addr + i ∧ addr + i - addr < bs.length := ⟨Nat.le_add_right _ _, by omega⟩
    rw [if_pos hc]
    have he : addr + i - addr = i := by omega
    rw [he]
    simp [List.getD_eq_getElem?_getD, List.getElem?_eq_getElem, h2]

theorem readBytes_storeBytes_of_disjoint (bs : List Nat) (addr : Nat) (d : Nat → Nat)
    (p l : Nat) (h : p + l ≤ addr ∨ addr + bs.length ≤ p) :
    readBytes (storeBytes bs addr d) p l = readBytes d p l := by
  apply List.ext_getElem
  · simp [readBytes]
  · intro i h1 h2
    simp only [readBytes, List.getElem_map, List.getElem_range, storeBytes]
    rw [if_neg]
    simp only [readBytes, List.length_map, List.length_range] at h1
    intro hc
    omega

/-! ### Helper lemmas about UTF-8 validity -/

theorem utf8Scan_zero_irrel (lo hi lo' hi' : Nat) (s : List Nat) :
    utf8Scan 0 lo hi s = utf8Scan 0 lo' hi' s := by
  cases s <;> rfl

theorem utf8Scan_append (ys : List Nat) (hy : utf8Scan 0 0 0 ys = true) :
    ∀ (xs : List Nat) (k lo hi : Nat), utf8Scan k lo hi xs = true →
      utf8Scan k lo hi (xs ++ ys) = true := by
  intro xs
  induction xs with
  | nil =>
    intro k lo hi hx
    cases k with
    | zero => rw [List.nil_append, utf8Scan_zero_irrel lo hi 0 0]; exact hy
    | succ k => exact absurd hx (by rw [utf8Scan]; simp)
  | cons b t ih =>
    intro k lo hi hx
    cases k with
    | zero =>
      rw [List.cons_append]
      rw [utf8Scan] at hx ⊢
      rcases hL : leadClass b with _ | ⟨k', lo', hi'⟩
      · rw [hL] at hx
        exact Bool.noConfusion hx
      · rw [hL] at hx
        exact ih _ _ _ hx
    | succ k =>
      rw [List.cons_append]
      rw [utf8Scan] at hx ⊢
      by_cases hb : (lo ≤ b && b ≤ hi) = true
      · rw [if_pos hb] at hx ⊢
        exact ih _ _ _ hx
      · rw [if_neg hb] at hx
        exact Bool.noConfusion hx

theorem validUtf8_append (xs ys : List Nat) (hx : validUtf8 xs = true)
    (hy : validUtf8 ys = true) : validUtf8 (xs ++ ys) = true :=
  utf8Scan_append ys hy xs 0 0 0 hx

theorem leadClass_state (b k lo hi : Nat) (h : leadClass b = some (k, lo, hi)) :
    k = 0 ∨ 128 ≤ lo := by
  unfold leadClass at h
  repeat
    first
      | exact Option.noConfusion h
      | (simp only [Option.some.injEq, Prod.mk.injEq] at h; omega)
      | split at h

theorem utf8Scan_escapeQuotes :
    ∀ (s : List Nat) (k lo hi : Nat), (k = 0 ∨ 128 ≤ lo) → utf8Scan k lo hi s = true →
      utf8Scan k lo hi (escapeQuotes s) = true := by
  intro s
  induction s with
  | nil => intro k lo hi _ hx; exact hx
  | cons b t ih =>
    intro k lo hi hinv hx
    cases k with
    | zero =>
      by_cases hb : b = 34
      · subst hb
        rw [utf8Scan] at hx
        have h34 : leadClass 34 = some (0, 0, 0) := by decide
        rw [h34] at hx
        have he : escapeQuotes (34 :: t) = 92 :: 34 :: escapeQuotes t := by
          simp [escapeQuotes]
        rw [he, utf8Scan]
        have h92 : leadClass 92 = some (0, 0, 0) := by decide
        rw [h92]
        show utf8Scan 0 0 0 (34 :: escapeQuotes t) = true
        rw [utf8Scan, h34]
        show utf8Scan 0 0 0 (escapeQuotes t) = true
        exact ih 0 0 0 (Or.inl rfl) hx
      · have he : escapeQuotes (b :: t) = b :: escapeQuotes t := by
          simp [escapeQuotes, hb]
        rw [he]
        rw [utf8Scan] at hx ⊢
        rcases hL : leadClass b with _ | ⟨k', lo', hi'⟩
        · rw [hL] at hx
          exact Bool.noConfusion hx
        · rw [hL] at hx
          exact ih _ _ _ (leadClass_state b k' lo' hi' hL) hx
    | succ k =>
      rw [utf8Scan] at hx
      by_cases hcond : (lo ≤ b && b ≤ hi) = true
      · rw [if_pos hcond] at hx
        have hlo : 128 ≤ lo := hinv.resolve_left (Nat.succ_ne_zero k)
        have hb : ¬ b = 34 := by
          rw [Bool.and_eq_true] at hcond
          have h1 := of_decide_eq_true hcond.1
          omega
        have he : escapeQuotes (b :: t) = b :: escapeQuotes t := by
          simp [escapeQuotes, hb]
        rw [he, utf8Scan, if_pos hcond]
        exact ih _ _ _ (Or.inr (by omega)) hx
      · rw [if_neg hcond] at hx
        exact Bool.noConfusion hx

theorem validUtf8_escapeQuotes (s : List Nat) (h : validUtf8 s = true) :
    validUtf8 (escapeQuotes s) = true :=
  utf8Scan_escapeQuotes s 0 0 0 (Or.inl rfl) h

theorem validUtf8_embeddedInput (input : List Nat) :
    validUtf8 (embeddedInput input) = true := by
  unfold embeddedInput decodeInput
  by_cases hv : validUtf8 input = true
  · rw [if_pos hv]
    exact validUtf8_escapeQuotes input hv
  · rw [if_neg hv]
    decide

theorem validUtf8_response (input : List Nat) : validUtf8 (response input) = true := by
  unfold response
  exact validUtf8_append (tmplHead ++ embeddedInput input) tmplTail
    (validUtf8_append tmplHead (embeddedInput input) (by decide)
      (validUtf8_embeddedInput input)) (by decide)

/-- Unfolding `handle` once: it bumps the allocator by the response length,
stores the response at the old bump pointer, and packs that address with
the response length. -/
theorem handle_eq (m : GuestMem) (ptr len : Nat) :
    handle m ptr len =
      ({ next := m.next + (response (readBytes m.data ptr len)).length,
         data := storeBytes (response (readBytes m.data ptr len)) m.next m.data },
       packRef m.next (response (readBytes m.data ptr len)).length) := rfl

/-! ### The claims -/

/-- Claim C1: for the 5-byte ASCII input `World`, `handle` produces exactly
the response string of the raw template (with its literal backslash-quote
pairs) echoing `World`, copies it into a new buffer at the allocation
point 105, and the returned packed value decodes to that buffer's address
and its exact byte length (62). -/
theorem claim_C1 :
    readBytes memWorld.data 100 5 = strBytes ("World") ∧
    response (readBytes memWorld.data 100 5) = worldResponse ∧
    unpackAddr (handle memWorld 100 5).2 = 105 ∧
    unpackLen (handle memWorld 100 5).2 = worldResponse.length ∧
    readBytes (handle memWorld 100 5).1.data 105 worldResponse.length = worldResponse := by
  refine ⟨by decide, by decide, by decide, by decide, by decide⟩

/-- Claim C2: for every valid UTF-8 input without a double quote, the
embedded-input portion of the response equals the input exactly. -/
theorem claim_C2 (s : List Nat) (hv : validUtf8 s = true) (hq : 34 ∉ s) :
    embeddedInput s = s ∧ response s = tmplHead ++ s ++ tmplTail := by
  have h1 : embeddedInput s = s := by
    unfold embeddedInput decodeInput
    rw [if_pos hv]
    exact escapeQuotes_eq_self s hq
  exact ⟨h1, by unfold response; rw [h1]⟩

theorem claim_C2_witness :
    embeddedInput [72, 105] = [72, 105] ∧
    response [72, 105] = tmplHead ++ [72, 105] ++ tmplTail :=
  claim_C2 [72, 105] (by decide) (by decide)

/-- Claim C3: for every valid UTF-8 input, every double quote occurring in
the embedded-input portion is directly preceded by a backslash, the number
of quotes in that portion equals the number `n` of quotes in the input,
and exactly one backslash was added per quote (the backslash count grows
by exactly `n`). -/
theorem claim_C3 (s : List Nat) (hv : validUtf8 s = true) :
    (∀ i, (embeddedInput s).getD i 0 = 34 →
        0 < i ∧ (embeddedInput s).getD (i - 1) 0 = 92) ∧
    (embeddedInput s).count 34 = s.count 34 ∧
    (embeddedInput s).count 92 = s.count 92 + s.count 34 := by
  have he : embeddedInput s = escapeQuotes s := by
    unfold embeddedInput decodeInput
    rw [if_pos hv]
  rw [he]
  exact ⟨escapeQuotes_quote_preceded s, count34_escapeQuotes s, count92_escapeQuotes s⟩

theorem claim_C3_witness :
    (embeddedInput [97, 34]).count 34 = ([97, 34] : List Nat).count 34 ∧
    (embeddedInput [97, 34]).count 92 =
      ([97, 34] : List Nat).count 92 + ([97, 34] : List Nat).count 34 :=
  ⟨(claim_C3 [97, 34] (by decide)).2.1, (claim_C3 [97, 34] (by decide)).2.2⟩

/-- Claim C4: for every buffer whose bytes are not valid UTF-8, `handle`
substitutes the two-byte literal placeholder as the embedded-input portion
and still returns normally (the model's `handle` is total, so the response
is the ordinary template around the placeholder; no error escapes). -/
theorem claim_C4 (s : List Nat) (hv : validUtf8 s = false) :
    embeddedInput s = strBytes ("\x7b\x7d") ∧
    response s = tmplHead ++ strBytes ("\x7b\x7d") ++ tmplTail := by
  have h1 : embeddedInput s = strBytes ("\x7b\x7d") := by
    unfold embeddedInput decodeInput
    rw [if_neg (by simp [hv])]
    decide
  exact ⟨h1, by unfold response; rw [h1]⟩

theorem claim_C4_witness :
    embeddedInput [128] = strBytes ("\x7b\x7d") ∧
    response [128] = tmplHead ++ strBytes ("\x7b\x7d") ++ tmplTail :=
  claim_C4 [128] (by decide)

/-- Claim C5: whenever the output address and response length fit in 32
bits (as on wasm32), the packed return value of `handle` decodes via
`value >> 32` and `value & 0xFFFFFFFF` to the fresh buffer's address and
the response's exact byte length, and reading that region back yields
exactly the response bytes. -/
theorem claim_C5 (m : GuestMem) (ptr len : Nat) (ha : m.next < 2 ^ 32)
    (hl : (response (readBytes m.data ptr len)).length < 2 ^ 32) :
    unpackAddr (handle m ptr len).2 = m.next ∧
    unpackLen (handle m ptr len).2 = (response (readBytes m.data ptr len)).length ∧
    readBytes (handle m ptr len).1.data (unpackAddr (handle m ptr len).2)
      (unpackLen (handle m ptr len).2) = response (readBytes m.data ptr len) := by
  rw [handle_eq]
  have h1 : unpackAddr (packRef m.next (response (readBytes m.data ptr len)).length) =
      m.next := unpackAddr_packRef _ _ ha hl
  have h2 : unpackLen (packRef m.next (response (readBytes m.data ptr len)).length) =
      (response (readBytes m.data ptr len)).length := by
    rw [unpackLen_packRef]
    exact Nat.mod_eq_of_lt hl
  refine ⟨h1, h2, ?_⟩
  rw [h1, h2]
  exact readBytes_storeBytes _ _ _

theorem claim_C5_witness :
    unpackAddr (handle memWorld 100 5).2 = memWorld.next ∧
    unpackLen (handle memWorld 100 5).2 = (response (readBytes memWorld.data 100 5)).length ∧
    readBytes (handle memWorld 100 5).1.data (unpackAddr (handle memWorld 100 5).2)
      (unpackLen (handle memWorld 100 5).2) = response (readBytes memWorld.data 100 5) :=
  claim_C5 memWorld 100 5 (by decide) (by decide)

/-- Claim C6: allocating zero bytes succeeds, returning the current (valid)
bump address and expecting no space, and `handle` on a zero-length buffer
reference reads the empty byte string and produces the ordinary response
template with an empty embedded-input portion, not an error. -/
theorem claim_C6 (m : GuestMem) (ptr : Nat) :
    (alloc 0 m).1 = m.next ∧
    (alloc 0 m).2.next = m.next + 0 ∧
    readBytes m.data ptr 0 = [] ∧
    validUtf8 [] = true ∧
    embeddedInput [] = [] ∧
    response (readBytes m.data ptr 0) = tmplHead ++ [] ++ tmplTail :=
  ⟨rfl, rfl, rfl, rfl, rfl, rfl⟩

/-- Claim C7: `handle` always calls the allocator for a fresh output buffer
sized to the exact byte length of the response, copies the response bytes
into it, and — provided the input buffer lies inside previously allocated
memory — the fresh buffer is disjoint from the input buffer: its address
differs from the input address (for nonempty input) and the input bytes
are left untouched. -/
theorem claim_C7 (m : GuestMem) (ptr len : Nat) (hin : ptr + len ≤ m.next) :
    (handle m ptr len).1.next = m.next + (response (readBytes m.data ptr len)).length ∧
    readBytes (handle m ptr len).1.data m.next
      (response (readBytes m.data ptr len)).length = response (readBytes m.data ptr len) ∧
    (0 < len → m.next ≠ ptr) ∧
    readBytes (handle m ptr len).1.data ptr len = readBytes m.data ptr len := by
  rw [handle_eq]
  refine ⟨rfl, readBytes_storeBytes _ _ _, ?_, ?_⟩
  · intro hl
    omega
  · exact readBytes_storeBytes_of_disjoint _ _ _ _ _ (Or.inl hin)

theorem claim_C7_witness :
    (handle memWorld 100 5).1.next =
      memWorld.next + (response (readBytes memWorld.data 100 5)).length ∧
    readBytes (handle memWorld 100 5).1.data memWorld.next
      (response (readBytes memWorld.data 100 5)).length =
      response (readBytes memWorld.data 100 5) ∧
    (0 < 5 → memWorld.next ≠ 100) ∧
    readBytes (handle memWorld 100 5).1.data 100 5 = readBytes memWorld.data 100 5 :=
  claim_C7 memWorld 100 5 (by decide)

/-- Claim C8: the packing performs no validation: for address and length
each below `2 ^ 32` the decode of the packed value is lossless, while an
address or length of 32 bits or more is silently corrupted (the decoded
half no longer equals the actual one). -/
theorem claim_C8 :
    (∀ a l : Nat, a < 2 ^ 32 → l < 2 ^ 32 →
        unpackAddr (packRef a l) = a ∧ unpackLen (packRef a l) = l) ∧
    unpackAddr (packRef (2 ^ 32) 5) ≠ 2 ^ 32 ∧
    unpackLen (packRef 7 (2 ^ 32 + 9)) ≠ 2 ^ 32 + 9 := by
  refine ⟨fun a l ha hl => ⟨unpackAddr_packRef a l ha hl, ?_⟩, by decide, by decide⟩
  rw [unpackLen_packRef]
  exact Nat.mod_eq_of_lt hl

theorem claim_C8_witness :
    unpackAddr (packRef 3 7) = 3 ∧ unpackLen (packRef 3 7) = 7 :=
  claim_C8.1 3 7 (by decide) (by decide)

/-- Claim C9: for every memory and every buffer reference — whether or not
the referenced bytes are valid UTF-8 — the response `handle` builds and
the bytes it writes into the output buffer form a valid UTF-8 string. -/
theorem claim_C9 (m : GuestMem) (ptr len : Nat) :
    validUtf8 (response (readBytes m.data ptr len)) = true ∧
    validUtf8 (readBytes (handle m ptr len).1.data m.next
      (response (readBytes m.data ptr len)).length) = true := by
  refine ⟨validUtf8_response _, ?_⟩
  rw [handle_eq]
  rw [readBytes_storeBytes]
  exact validUtf8_response _

/-- Claim C10: `handle` is deterministic in its response content: two calls
whose input buffers hold the same byte sequence construct identical
response byte sequences, and the length halves (low 32 bits) of the two
packed return values are equal, regardless of the memories and addresses
involved. -/
theorem claim_C10 (m1 m2 : GuestMem) (p1 l1 p2 l2 : Nat)
    (h : readBytes m1.data p1 l1 = readBytes m2.data p2 l2) :
    response (readBytes m1.data p1 l1) = response (readBytes m2.data p2 l2) ∧
    unpackLen (handle m1 p1 l1).2 = unpackLen (handle m2 p2 l2).2 := by
  refine ⟨by rw [h], ?_⟩
  rw [handle_eq, handle_eq]
  rw [unpackLen_packRef, unpackLen_packRef, h]

theorem claim_C10_witness :
    response (readBytes memWorld.data 100 5) =
      response (readBytes (GuestMem.mk 7 (storeBytes (strBytes ("World")) 0 (fun _ => 1))).data 0 5) ∧
    unpackLen (handle memWorld 100 5).2 =
      unpackLen (handle (GuestMem.mk 7 (storeBytes (strBytes ("World")) 0 (fun _ => 1))) 0 5).2 :=
  claim_C10 memWorld (GuestMem.mk 7 (storeBytes (strBytes ("World")) 0 (fun _ => 1)))
    100 5 0 5 (by decide)

end Nimbus
